import Mathlib

/-!
Verification of the adaptive-quadrature subsystem of the repository
(the QUADPACK break-point integrator DQAGP and its driver DQAGPE),
together with the scripting-language validation helper mustBeNonnegative.

Reals are embedded as rationals; Fortran INTEGER values as Lean integers.
The DQAGP dimensioning wrapper is translated directly from
src/libcruft/quadpack/dqagp.f.  The driver DQAGPE is not part of the
source snapshot; it is modelled from the specification where needed.
-/

/-- Modelled from the spec: a subinterval record of the record store
(section 3 of the spec; one row of the DQAGPE work arrays): left and right
endpoints, local integral approximation and local absolute error estimate. -/
structure SubintervalRecord where
  left : ℚ
  right : ℚ
  approx : ℚ
  errEst : ℚ

/-- The caller-visible output of the integrator: result, abserr, neval,
last, the status code ier, and the final subinterval table (the significant
part of the work arrays on return). -/
structure QuadOut where
  result : ℚ
  abserr : ℚ
  neval : ℤ
  last : ℤ
  ier : ℤ
  recs : List SubintervalRecord

/-- DQAGP rejects LENIW < 3*NPTS2-2 (dqagp.f line 203, first disjunct). -/
def leniwTooSmall (leniw npts2 : ℤ) : Bool :=
  decide (leniw < 3 * npts2 - 2)

/-- DQAGP rejects LENW < LENIW*2-NPTS2 (dqagp.f line 203, second disjunct). -/
def lenwTooSmall (lenw leniw npts2 : ℤ) : Bool :=
  decide (lenw < leniw * 2 - npts2)

/-- DQAGP rejects NPTS2 < 2 (dqagp.f line 203, third disjunct). -/
def npts2TooSmall (npts2 : ℤ) : Bool :=
  decide (npts2 < 2)

/-- The combined dimensioning check of DQAGP (dqagp.f line 203):
IF(LENIW.LT.(3*NPTS2-2).OR.LENW.LT.(LENIW*2-NPTS2).OR.NPTS2.LT.2) GO TO 10. -/
def dimensionCheckFails (npts2 leniw lenw : ℤ) : Bool :=
  leniwTooSmall leniw npts2 || lenwTooSmall lenw leniw npts2 || npts2TooSmall npts2

/-- LIMIT = (LENIW-NPTS2)/2 (dqagp.f line 208); Fortran integer division
truncates toward zero, which is Int.tdiv. -/
def limitOf (leniw npts2 : ℤ) : ℤ :=
  (leniw - npts2).tdiv 2

/-- The output produced on the invalid-input path of DQAGP (dqagp.f lines
198-202): IER=6 and RESULT, ABSERR, NEVAL, LAST all zero; no subinterval
table is produced. -/
def invalidOut : QuadOut :=
  ⟨0, 0, 0, 0, 6, []⟩

/-- Shallow embedding of the DQAGP wrapper (dqagp.f lines 197-216),
parameterized by the driver DQAGPE, which receives the computed LIMIT.
If the dimensioning check fails, the preset invalid-input output is
returned and the driver is never applied. -/
def dqagp (driver : ℤ → QuadOut) (npts2 leniw lenw : ℤ) : QuadOut :=
  if dimensionCheckFails npts2 leniw lenw then invalidOut
  else driver (limitOf leniw npts2)

/-- C1: with LENIW < 3*NPTS2-2 or LENW < 2*LENIW-NPTS2 or NPTS2 < 2, DQAGP
returns IER=6 with result = 0, abserr = 0, neval = 0 and last = 0, and this
holds for every driver, so DQAGPE is never invoked. -/
theorem c1_invalid_dimensions_short_circuit (driver : ℤ → QuadOut)
    (npts2 leniw lenw : ℤ)
    (h : leniw < 3 * npts2 - 2 ∨ lenw < leniw * 2 - npts2 ∨ npts2 < 2) :
    dqagp driver npts2 leniw lenw = invalidOut ∧ invalidOut.ier = 6 ∧
      invalidOut.result = 0 ∧ invalidOut.abserr = 0 ∧
      invalidOut.neval = 0 ∧ invalidOut.last = 0 := by
  refine ⟨?_, rfl, rfl, rfl, rfl, rfl⟩
  unfold dqagp
  rw [if_pos]
  unfold dimensionCheckFails leniwTooSmall lenwTooSmall npts2TooSmall
  rcases h with h | h | h <;> simp [h]

/-- Witness for C1 at NPTS2 = 1, LENIW = 0, LENW = 0 and a driver whose
output differs from the invalid-input output. -/
theorem c1_invalid_dimensions_short_circuit_witness :
    dqagp (fun l => ⟨1, 1, 1, 1, 0, []⟩) 1 0 0 = invalidOut ∧
      invalidOut.ier = 6 ∧ invalidOut.result = 0 ∧ invalidOut.abserr = 0 ∧
      invalidOut.neval = 0 ∧ invalidOut.last = 0 :=
  c1_invalid_dimensions_short_circuit (fun l => ⟨1, 1, 1, 1, 0, []⟩) 1 0 0
    (Or.inl (by decide))

/-- C2: whenever the dimensioning check passes, DQAGP invokes the driver at
LIMIT = (LENIW - NPTS2) / 2, integer division (for these in-range arguments
the Fortran truncating division agrees with mathematical floor division). -/
theorem c2_limit_formula (driver : ℤ → QuadOut) (npts2 leniw lenw : ℤ)
    (h1 : 3 * npts2 - 2 ≤ leniw) (h2 : leniw * 2 - npts2 ≤ lenw)
    (h3 : 2 ≤ npts2) :
    dqagp driver npts2 leniw lenw = driver ((leniw - npts2) / 2) ∧
      limitOf leniw npts2 = (leniw - npts2) / 2 := by
  have ht : limitOf leniw npts2 = (leniw - npts2) / 2 :=
    Int.tdiv_eq_ediv (by omega) (by norm_num)
  refine ⟨?_, ht⟩
  unfold dqagp
  rw [if_neg, ht]
  unfold dimensionCheckFails leniwTooSmall lenwTooSmall npts2TooSmall
  simp only [Bool.or_eq_true, decide_eq_true_eq, not_or, not_lt]
  omega

/-- Witness for C2 at NPTS2 = 2, LENIW = 4, LENW = 6, where the computed
capacity is (4-2)/2 = 1. -/
theorem c2_limit_formula_witness :
    dqagp (fun l => ⟨0, 0, 0, 0, 0, []⟩) 2 4 6 =
        (fun l : ℤ => (⟨0, 0, 0, 0, 0, []⟩ : QuadOut)) ((4 - 2) / 2) ∧
      limitOf 4 2 = (4 - 2) / 2 :=
  c2_limit_formula (fun l => ⟨0, 0, 0, 0, 0, []⟩) 2 4 6
    (by decide) (by decide) (by decide)

/-- C3: a call with NPTS2 < 2 is rejected with IER=6 and zero outputs
before any computation (for every driver), and a call with NPTS2 ≥ 2
passes the NPTS2 portion of the dimensioning check. -/
theorem c3_npts2_validation (driver : ℤ → QuadOut) (npts2 leniw lenw : ℤ) :
    (npts2 < 2 → dqagp driver npts2 leniw lenw = invalidOut) ∧
      (2 ≤ npts2 → npts2TooSmall npts2 = false) := by
  constructor
  · intro h
    unfold dqagp
    rw [if_pos]
    unfold dimensionCheckFails npts2TooSmall
    simp [h]
  · intro h
    unfold npts2TooSmall
    simp
    omega

/-- Witness for C3: NPTS2 = 1 is rejected (driver ignored), NPTS2 = 5
passes the NPTS2 check. -/
theorem c3_npts2_validation_witness :
    dqagp (fun l => ⟨1, 1, 1, 1, 0, []⟩) 1 100 100 = invalidOut ∧
      npts2TooSmall 5 = false :=
  ⟨(c3_npts2_validation (fun l => ⟨1, 1, 1, 1, 0, []⟩) 1 100 100).1 (by decide),
    (c3_npts2_validation (fun l => ⟨1, 1, 1, 1, 0, []⟩) 5 100 100).2 (by decide)⟩

/-- C9: whenever the dimensioning validation passes (LENIW ≥ 3*NPTS2-2 and
NPTS2 ≥ 2), the computed capacity LIMIT = (LENIW-NPTS2)/2 satisfies
LIMIT ≥ NPTS2-1, so the record arena can hold at least one record per
initial segment. -/
theorem c9_limit_covers_segments (npts2 leniw : ℤ)
    (h1 : 3 * npts2 - 2 ≤ leniw) (h2 : 2 ≤ npts2) :
    npts2 - 1 ≤ limitOf leniw npts2 := by
  unfold limitOf
  rw [Int.tdiv_eq_ediv (by omega) (by norm_num)]
  omega

/-- Witness for C9 at NPTS2 = 3, LENIW = 9: LIMIT = (9-3)/2 = 3 ≥ 2. -/
theorem c9_limit_covers_segments_witness :
    (3 : ℤ) - 1 ≤ limitOf 9 3 :=
  c9_limit_covers_segments 3 9 (by decide) (by decide)

/-- Modelled from the spec: the local quadrature rule primitive of section
4.1 (DQAGPE's Gauss-Kronrod rule DQK21 is not in the source snapshot).
Given the integrand and a subinterval it produces an integral
approximation, a local absolute error estimate, and the number of
integrand evaluations spent. -/
def Rule : Type :=
  (ℚ → ℚ) → ℚ → ℚ → ℚ × ℚ × ℤ

/-- Sum of the integral approximations over the live records: the running
global integral approximation (spec section 3, global invariant). -/
def sumApprox (recs : List SubintervalRecord) : ℚ :=
  (recs.map SubintervalRecord.approx).sum

/-- Sum of the error estimates over the live records: the running global
error bound (spec section 3, global invariant). -/
def sumErr (recs : List SubintervalRecord) : ℚ :=
  (recs.map SubintervalRecord.errEst).sum

/-- Modelled from the spec: error-ranked priority selection (section 4.3,
step 1) - the index of the first live record with the largest error
estimate (ties broken toward the earlier record, a deterministic design
choice the spec leaves open in section 9). -/
def worstIdx : List SubintervalRecord → ℕ
  | [] => 0
  | [_] => 0
  | r :: s :: rs =>
    let j := worstIdx (s :: rs)
    if r.errEst < ((s :: rs).getD j ⟨0, 0, 0, 0⟩).errEst then j + 1 else 0

/-- Modelled from the spec: bisection step (section 4.3, step 2) - replace
the record at index i by its two halves, each evaluated by the local rule
at the midpoint split. Out-of-range indices leave the store unchanged. -/
def bisectAt (rule : Rule) (f : ℚ → ℚ) (recs : List SubintervalRecord)
    (i : ℕ) : List SubintervalRecord :=
  match recs[i]? with
  | none => recs
  | some r =>
    recs.take i ++
      [⟨r.left, (r.left + r.right) / 2,
        (rule f r.left ((r.left + r.right) / 2)).1,
        (rule f r.left ((r.left + r.right) / 2)).2.1⟩,
       ⟨(r.left + r.right) / 2, r.right,
        (rule f ((r.left + r.right) / 2) r.right).1,
        (rule f ((r.left + r.right) / 2) r.right).2.1⟩] ++
      recs.drop (i + 1)

/-- Modelled from the spec: the integrand evaluations spent by the
bisection of the record at index i. -/
def nevalIncAt (rule : Rule) (f : ℚ → ℚ) (recs : List SubintervalRecord)
    (i : ℕ) : ℤ :=
  match recs[i]? with
  | none => 0
  | some r =>
    (rule f r.left ((r.left + r.right) / 2)).2.2 +
      (rule f ((r.left + r.right) / 2) r.right).2.2

/-- Modelled from the spec: the successful-termination test of section
4.3, step 5 - the global error bound is within the requested tolerance. -/
def tolMet (epsabs epsrel : ℚ) (recs : List SubintervalRecord) : Bool :=
  decide (sumErr recs ≤ max epsabs (epsrel * |sumApprox recs|))

/-- Modelled from the spec: output on successful termination (IER=0) -
result and abserr are the sums over the live records, which are also
returned as the caller-visible subinterval table. -/
def successOut (recs : List SubintervalRecord) (neval : ℤ) : QuadOut :=
  ⟨sumApprox recs, sumErr recs, neval, recs.length, 0, recs⟩

/-- Modelled from the spec: output on capacity exhaustion (IER=1,
MaxSubdivisionsReached) - the best-effort result and abserr are still the
sums over the live records (spec section 7). -/
def capacityOut (recs : List SubintervalRecord) (neval : ℤ) : QuadOut :=
  ⟨sumApprox recs, sumErr recs, neval, recs.length, 1, recs⟩

/-- Modelled from the spec: the main adaptive loop of section 4.3 - while
the tolerance is not met, bisect the worst record; the fuel is the spare
arena capacity, and running out of it is the IER=1 termination. -/
def driverLoop (epsabs epsrel : ℚ) (rule : Rule) (f : ℚ → ℚ) :
    ℕ → List SubintervalRecord → ℤ → QuadOut
  | 0, recs, neval =>
    if tolMet epsabs epsrel recs then successOut recs neval
    else capacityOut recs neval
  | fuel + 1, recs, neval =>
    if tolMet epsabs epsrel recs then successOut recs neval
    else
      driverLoop epsabs epsrel rule f fuel
        (bisectAt rule f recs (worstIdx recs))
        (neval + nevalIncAt rule f recs (worstIdx recs))

/-- Modelled from the spec: the breakpoints merged with the integration
limits and sorted ascending (spec section 4.3 initial state; dqagp.f
prologue lines 42-47 and 178-180). -/
def sortedLimits (a b : ℚ) (points : List ℚ) : List ℚ :=
  List.insertionSort (· ≤ ·) (a :: (points ++ [b]))

/-- Adjacent pairs of a list of endpoints: the initial integration
segments. -/
def segmentsOf (epts : List ℚ) : List (ℚ × ℚ) :=
  epts.zip epts.tail

/-- Modelled from the spec: one initial record per segment, each evaluated
once by the local rule (spec section 4.3, initial state). -/
def initRecords (rule : Rule) (f : ℚ → ℚ) (segs : List (ℚ × ℚ)) :
    List SubintervalRecord :=
  segs.map fun s => ⟨s.1, s.2, (rule f s.1 s.2).1, (rule f s.1 s.2).2.1⟩

/-- Modelled from the spec: integrand evaluations spent on the initial
records. -/
def initNeval (rule : Rule) (f : ℚ → ℚ) (segs : List (ℚ × ℚ)) : ℤ :=
  (segs.map fun s => (rule f s.1 s.2).2.2).sum

/-- A breakpoint lying outside the integration range (dqagp.f prologue
lines 113-114; spec section 4.4). -/
def pointOutside (a b p : ℚ) : Bool :=
  decide (p < min a b) || decide (max a b < p)

/-- Modelled from the spec: the driver-level validation of DQAGPE (spec
sections 4.4 and 6; dqagp.f prologue lines 111-116) - some breakpoint
outside the range, or an invalid accuracy request epsabs ≤ 0 with epsrel
below max(50*machine_epsilon, 0.5e-28). -/
def invalidDriverInput (machEps : ℚ) (a b : ℚ) (points : List ℚ)
    (epsabs epsrel : ℚ) : Bool :=
  points.any (pointOutside a b) ||
    (decide (epsabs ≤ 0) && decide (epsrel < max (50 * machEps) (5 / 10 ^ 29)))

/-- Modelled from the spec: the driver DQAGPE (not in the source
snapshot) - validate, sort the breakpoints with the limits, build one
record per initial segment, then run the adaptive loop within the arena
capacity. -/
def dqagpeModel (machEps : ℚ) (rule : Rule) (f : ℚ → ℚ) (a b : ℚ)
    (points : List ℚ) (epsabs epsrel : ℚ) (limit : ℤ) : QuadOut :=
  if invalidDriverInput machEps a b points epsabs epsrel then invalidOut
  else
    driverLoop epsabs epsrel rule f
      (limit - (initRecords rule f (segmentsOf (sortedLimits a b points))).length).toNat
      (initRecords rule f (segmentsOf (sortedLimits a b points)))
      (initNeval rule f (segmentsOf (sortedLimits a b points)))

/-- The full integration entry point: the DQAGP wrapper from the source
composed with the spec-modelled driver DQAGPE. -/
def dqagpFull (machEps : ℚ) (rule : Rule) (f : ℚ → ℚ) (a b : ℚ)
    (points : List ℚ) (epsabs epsrel : ℚ) (npts2 leniw lenw : ℤ) : QuadOut :=
  dqagp (dqagpeModel machEps rule f a b points epsabs epsrel) npts2 leniw lenw

/-- An Octave numeric scalar for the validation helper: a rational value
or NaN (the one floating-point value whose comparisons all fail). -/
inductive OctValue where
  | num : ℚ → OctValue
  | nan : OctValue
deriving DecidableEq

/-- Octave's elementwise comparison x >= 0 as used by mustBeNonnegative:
NaN compares false against everything, so geZero OctValue.nan = false. -/
def geZero : OctValue → Bool
  | OctValue.num q => decide (0 ≤ q)
  | OctValue.nan => false

/-- The error message text produced by the helper (the exact wording is
built by sprintf in the source and is irrelevant to the claims). -/
def nonnegErrMsg : String :=
  "input must be non-negative"

/-- Shallow embedding of mustBeNonnegative (src/libgui/src/octave-qobject.cc,
texinfo block and function body): tf = x >= 0 elementwise; raise an error
if not all elements pass, otherwise return normally. -/
def mustBeNonnegative (x : List OctValue) : Except String Unit :=
  if x.all geZero then Except.ok () else Except.error nonnegErrMsg

theorem sumErr_nonneg (recs : List SubintervalRecord)
    (h : ∀ r ∈ recs, 0 ≤ r.errEst) : 0 ≤ sumErr recs := by
  unfold sumErr
  apply List.sum_nonneg
  intro x hx
  simp only [List.mem_map] at hx
  obtain ⟨r, hr, rfl⟩ := hx
  exact h r hr

theorem bisectAt_errEst_nonneg (rule : Rule) (f : ℚ → ℚ)
    (recs : List SubintervalRecord) (i : ℕ)
    (herr : ∀ (g : ℚ → ℚ) (u v : ℚ), 0 ≤ (rule g u v).2.1)
    (hrecs : ∀ r ∈ recs, 0 ≤ r.errEst) :
    ∀ r ∈ bisectAt rule f recs i, 0 ≤ r.errEst := by
  unfold bisectAt
  split
  · exact hrecs
  · intro r hr
    simp only [List.mem_append, List.mem_cons, List.not_mem_nil, or_false] at hr
    rcases hr with (hr | hr | hr) | hr
    · exact hrecs r (List.take_subset _ _ hr)
    · subst hr; exact herr f _ _
    · subst hr; exact herr f _ _
    · exact hrecs r (List.drop_subset _ _ hr)

theorem nevalIncAt_nonneg (rule : Rule) (f : ℚ → ℚ)
    (recs : List SubintervalRecord) (i : ℕ)
    (hpos : ∀ (g : ℚ → ℚ) (u v : ℚ), 0 < (rule g u v).2.2) :
    0 ≤ nevalIncAt rule f recs i := by
  unfold nevalIncAt
  split
  · exact le_refl 0
  · next r heq =>
    have h1 := hpos f r.left ((r.left + r.right) / 2)
    have h2 := hpos f ((r.left + r.right) / 2) r.right
    omega

theorem driverLoop_sums (epsabs epsrel : ℚ) (rule : Rule) (f : ℚ → ℚ) :
    ∀ (fuel : ℕ) (recs : List SubintervalRecord) (neval : ℤ),
      ((driverLoop epsabs epsrel rule f fuel recs neval).ier = 0 ∨
          (driverLoop epsabs epsrel rule f fuel recs neval).ier = 1) ∧
        (driverLoop epsabs epsrel rule f fuel recs neval).result =
          sumApprox (driverLoop epsabs epsrel rule f fuel recs neval).recs ∧
        (driverLoop epsabs epsrel rule f fuel recs neval).abserr =
          sumErr (driverLoop epsabs epsrel rule f fuel recs neval).recs := by
  intro fuel
  induction fuel with
  | zero =>
    intro recs neval
    simp only [driverLoop]
    split
    · exact ⟨Or.inl rfl, rfl, rfl⟩
    · exact ⟨Or.inr rfl, rfl, rfl⟩
  | succ n ih =>
    intro recs neval
    simp only [driverLoop]
    split
    · exact ⟨Or.inl rfl, rfl, rfl⟩
    · exact ih _ _

theorem driverLoop_success_bound (epsabs epsrel : ℚ) (rule : Rule) (f : ℚ → ℚ) :
    ∀ (fuel : ℕ) (recs : List SubintervalRecord) (neval : ℤ),
      (driverLoop epsabs epsrel rule f fuel recs neval).ier = 0 →
      (driverLoop epsabs epsrel rule f fuel recs neval).abserr ≤
        max epsabs
          (epsrel * |(driverLoop epsabs epsrel rule f fuel recs neval).result|) := by
  intro fuel
  induction fuel with
  | zero =>
    intro recs neval
    simp only [driverLoop]
    split
    · next h =>
      intro _
      have hq : sumErr recs ≤ max epsabs (epsrel * |sumApprox recs|) := by
        simpa [tolMet] using h
      simpa [successOut] using hq
    · intro h
      simp [capacityOut] at h
  | succ n ih =>
    intro recs neval
    simp only [driverLoop]
    split
    · next h =>
      intro _
      have hq : sumErr recs ≤ max epsabs (epsrel * |sumApprox recs|) := by
        simpa [tolMet] using h
      simpa [successOut] using hq
    · intro h
      exact ih _ _ h

theorem driverLoop_nonneg_mono (epsabs epsrel : ℚ) (rule : Rule) (f : ℚ → ℚ)
    (herr : ∀ (g : ℚ → ℚ) (u v : ℚ), 0 ≤ (rule g u v).2.1)
    (hpos : ∀ (g : ℚ → ℚ) (u v : ℚ), 0 < (rule g u v).2.2) :
    ∀ (fuel : ℕ) (recs : List SubintervalRecord) (neval : ℤ),
      (∀ r ∈ recs, 0 ≤ r.errEst) →
      0 ≤ (driverLoop epsabs epsrel rule f fuel recs neval).abserr ∧
        neval ≤ (driverLoop epsabs epsrel rule f fuel recs neval).neval := by
  intro fuel
  induction fuel with
  | zero =>
    intro recs neval hrecs
    simp only [driverLoop]
    split
    · exact ⟨sumErr_nonneg recs hrecs, le_refl neval⟩
    · exact ⟨sumErr_nonneg recs hrecs, le_refl neval⟩
  | succ n ih =>
    intro recs neval hrecs
    simp only [driverLoop]
    split
    · exact ⟨sumErr_nonneg recs hrecs, le_refl neval⟩
    · have hinv := bisectAt_errEst_nonneg rule f recs (worstIdx recs) herr hrecs
      have hmain := ih (bisectAt rule f recs (worstIdx recs))
        (neval + nevalIncAt rule f recs (worstIdx recs)) hinv
      refine ⟨hmain.1, le_trans ?_ hmain.2⟩
      have hn := nevalIncAt_nonneg rule f recs (worstIdx recs) hpos
      omega

theorem initRecords_errEst_nonneg (rule : Rule) (f : ℚ → ℚ)
    (segs : List (ℚ × ℚ))
    (herr : ∀ (g : ℚ → ℚ) (u v : ℚ), 0 ≤ (rule g u v).2.1) :
    ∀ r ∈ initRecords rule f segs, 0 ≤ r.errEst := by
  intro r hr
  unfold initRecords at hr
  simp only [List.mem_map] at hr
  obtain ⟨s, _, rfl⟩ := hr
  exact herr f s.1 s.2

theorem initNeval_pos (rule : Rule) (f : ℚ → ℚ) (segs : List (ℚ × ℚ))
    (hpos : ∀ (g : ℚ → ℚ) (u v : ℚ), 0 < (rule g u v).2.2)
    (hne : segs ≠ []) : 0 < initNeval rule f segs := by
  unfold initNeval
  apply List.sum_pos
  · intro x hx
    simp only [List.mem_map] at hx
    obtain ⟨s, _, rfl⟩ := hx
    exact hpos f s.1 s.2
  · simpa using hne

theorem segmentsOf_sortedLimits_ne_nil (a b : ℚ) (points : List ℚ) :
    segmentsOf (sortedLimits a b points) ≠ [] := by
  unfold segmentsOf sortedLimits
  intro h
  have hlen := congrArg List.length h
  simp only [List.length_zip, List.length_tail, List.length_insertionSort,
    List.length_cons, List.length_append, List.length_nil] at hlen
  omega

/-- C4: for every call with epsabs ≤ 0 and epsrel < max(50*machine_epsilon,
0.5e-28), the integration fails fast with the invalid-input status IER=6
and performs no integration (zero result, abserr, neval, last). -/
theorem c4_accuracy_request_rejected (machEps : ℚ) (rule : Rule) (f : ℚ → ℚ)
    (a b : ℚ) (points : List ℚ) (epsabs epsrel : ℚ) (npts2 leniw lenw : ℤ)
    (h1 : epsabs ≤ 0) (h2 : epsrel < max (50 * machEps) (5 / 10 ^ 29)) :
    dqagpFull machEps rule f a b points epsabs epsrel npts2 leniw lenw =
      invalidOut := by
  unfold dqagpFull dqagp
  split
  · rfl
  · unfold dqagpeModel
    rw [if_pos]
    unfold invalidDriverInput
    simp [h1, h2]

/-- Witness for C4 with machine epsilon 2^-52 and epsabs = epsrel = 0. -/
theorem c4_accuracy_request_rejected_witness :
    dqagpFull (1 / 2 ^ 52) (fun g u v => (0, 0, 1)) (fun x => 0) 0 1 [] 0 0
        2 4 6 = invalidOut :=
  c4_accuracy_request_rejected (1 / 2 ^ 52) (fun g u v => (0, 0, 1))
    (fun x => 0) 0 1 [] 0 0 2 4 6 (le_refl 0)
    (by rw [lt_max_iff]; left; norm_num)

/-- C5: whenever the integration terminates with status Success (IER=0),
the returned abserr satisfies abserr ≤ max(epsabs, epsrel * |result|); the
witness below exhibits the success case on a smooth (constant) integrand
with sufficient capacity. -/
theorem c5_success_error_bound (machEps : ℚ) (rule : Rule) (f : ℚ → ℚ)
    (a b : ℚ) (points : List ℚ) (epsabs epsrel : ℚ) (npts2 leniw lenw : ℤ)
    (h : (dqagpFull machEps rule f a b points epsabs epsrel npts2
      leniw lenw).ier = 0) :
    (dqagpFull machEps rule f a b points epsabs epsrel npts2
        leniw lenw).abserr ≤
      max epsabs (epsrel * |(dqagpFull machEps rule f a b points epsabs
        epsrel npts2 leniw lenw).result|) := by
  unfold dqagpFull dqagp at h ⊢
  revert h
  split
  · intro h
    simp [invalidOut] at h
  · unfold dqagpeModel
    split
    · intro h
      simp [invalidOut] at h
    · exact driverLoop_success_bound epsabs epsrel rule f _ _ _

theorem perm_any_eq {α : Type} (p : α → Bool) {l l' : List α}
    (h : l.Perm l') : l.any p = l'.any p := by
  induction h with
  | nil => rfl
  | cons x _ ih => simp only [List.any_cons, ih]
  | swap x y l => simp only [List.any_cons, Bool.or_left_comm]
  | trans _ _ ih1 ih2 => rw [ih1, ih2]

theorem sortedLimits_perm (a b : ℚ) {points pts : List ℚ}
    (h : points.Perm pts) :
    sortedLimits a b points = sortedLimits a b pts := by
  unfold sortedLimits
  exact List.eq_of_perm_of_sorted
    ((List.perm_insertionSort _ _).trans
      (((h.append_right [b]).cons a).trans (List.perm_insertionSort _ _).symm))
    (List.sorted_insertionSort _ _) (List.sorted_insertionSort _ _)

/-- C6: two breakpoint sequences that are permutations of each other (all
other arguments equal) yield identical outputs - the breakpoints are
sorted ascending internally, so input order does not affect result,
abserr, neval, last or status. -/
theorem c6_permutation_invariance (machEps : ℚ) (rule : Rule) (f : ℚ → ℚ)
    (a b : ℚ) (points pts : List ℚ) (epsabs epsrel : ℚ)
    (npts2 leniw lenw : ℤ) (h : points.Perm pts) :
    dqagpFull machEps rule f a b points epsabs epsrel npts2 leniw lenw =
      dqagpFull machEps rule f a b pts epsabs epsrel npts2 leniw lenw := by
  have hs := sortedLimits_perm a b h
  have hc : invalidDriverInput machEps a b points epsabs epsrel =
      invalidDriverInput machEps a b pts epsabs epsrel := by
    unfold invalidDriverInput
    rw [perm_any_eq _ h]
  unfold dqagpFull dqagp
  split
  · rfl
  · unfold dqagpeModel
    rw [hc, hs]

/-- Witness for C6: the breakpoint lists [1, 2] and [2, 1] on the range
[0, 3] produce identical outputs. -/
theorem c6_permutation_invariance_witness :
    dqagpFull (1 / 2 ^ 52) (fun g u v => (0, 0, 1)) (fun x => 0) 0 3 [1, 2]
        1 0 4 10 16 =
      dqagpFull (1 / 2 ^ 52) (fun g u v => (0, 0, 1)) (fun x => 0) 0 3 [2, 1]
        1 0 4 10 16 :=
  c6_permutation_invariance (1 / 2 ^ 52) (fun g u v => (0, 0, 1)) (fun x => 0)
    0 3 [1, 2] [2, 1] 1 0 4 10 16 (List.Perm.swap 2 1 [])

/-- Witness for C5: the constant integrand 1 on [0, 1] with no breakpoints,
epsabs = 1, epsrel = 0 and full capacity terminates with IER=0 and the
claimed bound holds there. -/
theorem c5_success_error_bound_witness :
    (dqagpFull (1 / 2 ^ 52) (fun g u v => (1, 0, 1)) (fun x => 1) 0 1 [] 1 0
        2 4 6).abserr ≤
      max 1 (0 * |(dqagpFull (1 / 2 ^ 52) (fun g u v => (1, 0, 1))
        (fun x => 1) 0 1 [] 1 0 2 4 6).result|) := by
  have h0 : (dqagpFull (1 / 2 ^ 52) (fun g u v => (1, 0, 1)) (fun x => 1)
      0 1 [] 1 0 2 4 6).ier = 0 := by
    norm_num [dqagpFull, dqagp, dqagpeModel, dimensionCheckFails,
      leniwTooSmall, lenwTooSmall, npts2TooSmall, invalidDriverInput, limitOf,
      sortedLimits, List.insertionSort, List.orderedInsert, segmentsOf,
      initRecords, initNeval, driverLoop, tolMet, sumApprox, sumErr,
      successOut, Int.tdiv]
  exact c5_success_error_bound (1 / 2 ^ 52) (fun g u v => (1, 0, 1))
    (fun x => 1) 0 1 [] 1 0 2 4 6 h0

/-- C7: for every valid input (the returned status is not IER=6), the
returned abserr is ≥ 0 and the returned neval is > 0, for any local rule
that reports nonnegative error estimates and positive evaluation counts. -/
theorem c7_valid_output_sane (machEps : ℚ) (rule : Rule) (f : ℚ → ℚ)
    (a b : ℚ) (points : List ℚ) (epsabs epsrel : ℚ) (npts2 leniw lenw : ℤ)
    (herr : ∀ (g : ℚ → ℚ) (u v : ℚ), 0 ≤ (rule g u v).2.1)
    (hpos : ∀ (g : ℚ → ℚ) (u v : ℚ), 0 < (rule g u v).2.2)
    (hier : (dqagpFull machEps rule f a b points epsabs epsrel npts2
      leniw lenw).ier ≠ 6) :
    0 ≤ (dqagpFull machEps rule f a b points epsabs epsrel npts2
        leniw lenw).abserr ∧
      0 < (dqagpFull machEps rule f a b points epsabs epsrel npts2
        leniw lenw).neval := by
  unfold dqagpFull dqagp at hier ⊢
  revert hier
  split
  · intro hier
    exact absurd rfl hier
  · unfold dqagpeModel
    split
    · intro hier
      exact absurd rfl hier
    · intro _
      have hinit := initRecords_errEst_nonneg rule f
        (segmentsOf (sortedLimits a b points)) herr
      have hmain := driverLoop_nonneg_mono epsabs epsrel rule f herr hpos
        (limitOf leniw npts2 -
          (initRecords rule f (segmentsOf (sortedLimits a b points))).length).toNat
        (initRecords rule f (segmentsOf (sortedLimits a b points)))
        (initNeval rule f (segmentsOf (sortedLimits a b points))) hinit
      refine ⟨hmain.1, lt_of_lt_of_le ?_ hmain.2⟩
      exact initNeval_pos rule f _ hpos (segmentsOf_sortedLimits_ne_nil a b points)

/-- Witness for C7: a valid call (IER=0) whose output has abserr ≥ 0 and
neval > 0. -/
theorem c7_valid_output_sane_witness :
    0 ≤ (dqagpFull (1 / 2 ^ 52) (fun g u v => (1, 0, 1)) (fun x => 1) 0 1 []
        2 0 2 4 6).abserr ∧
      0 < (dqagpFull (1 / 2 ^ 52) (fun g u v => (1, 0, 1)) (fun x => 1) 0 1 []
        2 0 2 4 6).neval := by
  have h0 : (dqagpFull (1 / 2 ^ 52) (fun g u v => (1, 0, 1)) (fun x => 1)
      0 1 [] 2 0 2 4 6).ier = 0 := by
    norm_num [dqagpFull, dqagp, dqagpeModel, dimensionCheckFails,
      leniwTooSmall, lenwTooSmall, npts2TooSmall, invalidDriverInput, limitOf,
      sortedLimits, List.insertionSort, List.orderedInsert, segmentsOf,
      initRecords, initNeval, driverLoop, tolMet, sumApprox, sumErr,
      successOut, Int.tdiv]
  exact c7_valid_output_sane (1 / 2 ^ 52) (fun g u v => (1, 0, 1))
    (fun x => 1) 0 1 [] 2 0 2 4 6 (fun g u v => le_refl 0)
    (fun g u v => one_pos) (by rw [h0]; decide)

/-- C10: mustBeNonnegative succeeds exactly when every element passes the
elementwise test x >= 0, raises an error when some element fails it, and in
particular raises an error for any input containing NaN (whose comparison
against 0 is false even though NaN is not a negative number). -/
theorem c10_mustBeNonnegative_error_iff (x : List OctValue) :
    (mustBeNonnegative x = Except.ok () ↔ ∀ v ∈ x, geZero v = true) ∧
      ((∃ v ∈ x, geZero v = false) →
        mustBeNonnegative x = Except.error nonnegErrMsg) ∧
      (OctValue.nan ∈ x → mustBeNonnegative x = Except.error nonnegErrMsg) := by
  have hkey : ∀ v ∈ x, geZero v = false →
      mustBeNonnegative x = Except.error nonnegErrMsg := by
    intro v hv hfalse
    have hna : ¬ (x.all geZero = true) := by
      rw [List.all_eq_true]
      intro hall
      have hx := hall v hv
      rw [hfalse] at hx
      exact Bool.false_ne_true hx
    unfold mustBeNonnegative
    rw [if_neg hna]
  refine ⟨?_, ?_, ?_⟩
  · unfold mustBeNonnegative
    split
    · next h =>
      rw [List.all_eq_true] at h
      exact iff_of_true rfl h
    · next h =>
      constructor
      · intro hc
        exact absurd hc (fun hcon => Except.noConfusion hcon)
      · intro hall
        exact absurd (List.all_eq_true.mpr hall) h
  · intro hex
    obtain ⟨v, hv, hfalse⟩ := hex
    exact hkey v hv hfalse
  · intro hnan
    exact hkey OctValue.nan hnan rfl

/-- Witness for C10: an input containing the value 2 and NaN raises the
error. -/
theorem c10_mustBeNonnegative_error_iff_witness :
    mustBeNonnegative [OctValue.num 2, OctValue.nan] =
      Except.error nonnegErrMsg :=
  (c10_mustBeNonnegative_error_iff [OctValue.num 2, OctValue.nan]).2.2
    (by decide)

/-- Modelled from the spec: the full error-kind taxonomy of spec section 7
for the caller-visible status - Success (IER=0), MaxSubdivisionsReached
(IER=1), RoundoffDetected (IER=2), BadIntegrandBehavior (IER=3),
ExtrapolationDivergence (IER=4), ProbableDivergence (IER=5), InvalidInput
(IER=6) and IntegrandEvaluationFailure (the fatal abort of sections 3 and
4.1, to which the dqagp.f prologue assigns no IER number). -/
inductive ErrKind where
  | success
  | maxSubdivisions
  | roundoff
  | badBehaviour
  | extrapDivergence
  | probDivergence
  | invalidInput
  | evalFailure
deriving DecidableEq

/-- Modelled from the spec: the four abnormal mid-loop classifications of
spec section 4.3 step 6 (IER=2-5) that the driver heuristics may raise. -/
inductive AbnormalKind where
  | roundoff
  | badBehaviour
  | extrapDivergence
  | probDivergence
deriving DecidableEq

/-- The error kind of each abnormal classification. -/
def AbnormalKind.toErr : AbnormalKind → ErrKind
  | AbnormalKind.roundoff => ErrKind.roundoff
  | AbnormalKind.badBehaviour => ErrKind.badBehaviour
  | AbnormalKind.extrapDivergence => ErrKind.extrapDivergence
  | AbnormalKind.probDivergence => ErrKind.probDivergence

/-- The caller-visible output of the integrator with the status drawn from
the full taxonomy (spec section 3, ResultState). -/
structure QuadOutE where
  result : ℚ
  abserr : ℚ
  neval : ℤ
  last : ℤ
  status : ErrKind
  recs : List SubintervalRecord

/-- Modelled from the spec: the fallible local quadrature rule of sections
3 and 4.1 - the integrand maps a scalar to a scalar or signals evaluation
failure, and the rule propagates that failure as none, a fatal abort of
the whole integration. -/
def RuleE : Type :=
  (ℚ → Option ℚ) → ℚ → ℚ → Option (ℚ × ℚ × ℤ)

/-- Modelled from the spec: the abnormal-termination classifier of spec
section 4.3 step 6, consulted every iteration on the live records and the
running evaluation count; it may classify the state as one of IER=2-5.
The concrete roundoff/divergence counters live in the absent DQAGPE, so
the model abstracts them as a parameter ranging over all classifiers. -/
def Classifier : Type :=
  List SubintervalRecord → ℤ → Option AbnormalKind

/-- Termination output with the given status, populated best-effort from
the live records (spec sections 4.3 step 7 and 7). -/
def outE (recs : List SubintervalRecord) (neval : ℤ) (k : ErrKind) : QuadOutE :=
  ⟨sumApprox recs, sumErr recs, neval, recs.length, k, recs⟩

/-- The invalid-input output of the extended model: InvalidInput with all
numeric outputs zero, as on the dqagp.f lines 198-202 preset. -/
def invalidOutE : QuadOutE :=
  ⟨0, 0, 0, 0, ErrKind.invalidInput, []⟩

/-- Modelled from the spec: fallible bisection - evaluate the two halves
of the record at index i with the fallible rule; none as soon as the
integrand fails. Also returns the evaluations spent. -/
def bisectAtE (rule : RuleE) (f : ℚ → Option ℚ)
    (recs : List SubintervalRecord) (i : ℕ) :
    Option (List SubintervalRecord × ℤ) :=
  match recs[i]? with
  | none => some (recs, 0)
  | some r =>
    match rule f r.left ((r.left + r.right) / 2),
        rule f ((r.left + r.right) / 2) r.right with
    | some p, some q =>
      some (recs.take i ++
        [⟨r.left, (r.left + r.right) / 2, p.1, p.2.1⟩,
         ⟨(r.left + r.right) / 2, r.right, q.1, q.2.1⟩] ++
        recs.drop (i + 1), p.2.2 + q.2.2)
    | _, _ => none

/-- Modelled from the spec: the adaptive loop with the full abnormal
taxonomy - the step-5 success test, the step-6 classification (IER=2-5),
capacity exhaustion (IER=1) when the fuel (spare arena capacity) runs out,
and the fatal integrand-evaluation failure; every exit populates the
output best-effort from the live records. -/
def driverLoopE (epsabs epsrel : ℚ) (rule : RuleE) (cls : Classifier)
    (f : ℚ → Option ℚ) :
    ℕ → List SubintervalRecord → ℤ → QuadOutE
  | 0, recs, neval =>
    if tolMet epsabs epsrel recs then outE recs neval ErrKind.success
    else outE recs neval ErrKind.maxSubdivisions
  | fuel + 1, recs, neval =>
    if tolMet epsabs epsrel recs then outE recs neval ErrKind.success
    else
      match cls recs neval with
      | some k => outE recs neval k.toErr
      | none =>
        match bisectAtE rule f recs (worstIdx recs) with
        | none => outE recs neval ErrKind.evalFailure
        | some st => driverLoopE epsabs epsrel rule cls f fuel st.1 (neval + st.2)

/-- Modelled from the spec: the fallible initial phase - one record per
segment, none as soon as the integrand fails (spec section 4.1: evaluation
failure is a fatal abort). -/
def initRecordsE (rule : RuleE) (f : ℚ → Option ℚ) :
    List (ℚ × ℚ) → Option (List SubintervalRecord × ℤ)
  | [] => some ([], 0)
  | s :: ss =>
    match rule f s.1 s.2, initRecordsE rule f ss with
    | some p, some t => some (⟨s.1, s.2, p.1, p.2.1⟩ :: t.1, t.2 + p.2.2)
    | _, _ => none

/-- Modelled from the spec: the driver DQAGPE with the full failure
taxonomy - validation, fallible initial phase (failure terminates with the
IntegrandEvaluationFailure status), then the classified adaptive loop. -/
def dqagpeModelE (machEps : ℚ) (rule : RuleE) (cls : Classifier)
    (f : ℚ → Option ℚ) (a b : ℚ) (points : List ℚ) (epsabs epsrel : ℚ)
    (limit : ℤ) : QuadOutE :=
  if invalidDriverInput machEps a b points epsabs epsrel then invalidOutE
  else
    match initRecordsE rule f (segmentsOf (sortedLimits a b points)) with
    | none => outE [] 0 ErrKind.evalFailure
    | some st =>
      driverLoopE epsabs epsrel rule cls f (limit - st.1.length).toNat st.1 st.2

/-- The DQAGP wrapper of dqagp.f lines 197-216 over the extended output
taxonomy (same dimensioning check and LIMIT computation as dqagp). -/
def dqagpE (driver : ℤ → QuadOutE) (npts2 leniw lenw : ℤ) : QuadOutE :=
  if dimensionCheckFails npts2 leniw lenw then invalidOutE
  else driver (limitOf leniw npts2)

/-- The diagnostic text of dqagp.f line 222 (the 26-character Hollerith
constant passed to XERROR). -/
def abnormalMsg : String :=
  "ABNORMAL RETURN FROM DQAGP"

/-- The error-handler step of dqagp.f lines 220-222: LVL is 1 exactly for
IER=6 and 0 otherwise, and XERROR is called exactly on abnormal returns
(IER > 0). XERROR prints a diagnostic and returns, so the call is embedded
as the optional diagnostic it emits - it never alters the integration
outputs and raises no exception. -/
def xerrorDiag (k : ErrKind) : Option (String × ErrKind × ℤ) :=
  if k = ErrKind.success then none
  else some (abnormalMsg, k, if k = ErrKind.invalidInput then 1 else 0)

/-- The full integration entry point over the complete failure taxonomy,
composed with the dqagp.f error-handler step: the output record together
with the diagnostic the error handler emits on the way out. -/
def dqagpFullE (machEps : ℚ) (rule : RuleE) (cls : Classifier)
    (f : ℚ → Option ℚ) (a b : ℚ) (points : List ℚ) (epsabs epsrel : ℚ)
    (npts2 leniw lenw : ℤ) : QuadOutE × Option (String × ErrKind × ℤ) :=
  (dqagpE (dqagpeModelE machEps rule cls f a b points epsabs epsrel)
      npts2 leniw lenw,
    xerrorDiag (dqagpE (dqagpeModelE machEps rule cls f a b points epsabs
      epsrel) npts2 leniw lenw).status)

theorem driverLoopE_spec (epsabs epsrel : ℚ) (rule : RuleE) (cls : Classifier)
    (f : ℚ → Option ℚ) :
    ∀ (fuel : ℕ) (recs : List SubintervalRecord) (neval : ℤ),
      (driverLoopE epsabs epsrel rule cls f fuel recs neval).status ≠
          ErrKind.invalidInput ∧
        (driverLoopE epsabs epsrel rule cls f fuel recs neval).result =
          sumApprox (driverLoopE epsabs epsrel rule cls f fuel recs neval).recs ∧
        (driverLoopE epsabs epsrel rule cls f fuel recs neval).abserr =
          sumErr (driverLoopE epsabs epsrel rule cls f fuel recs neval).recs := by
  intro fuel
  induction fuel with
  | zero =>
    intro recs neval
    simp only [driverLoopE]
    split
    · exact ⟨fun h => ErrKind.noConfusion h, rfl, rfl⟩
    · exact ⟨fun h => ErrKind.noConfusion h, rfl, rfl⟩
  | succ n ih =>
    intro recs neval
    simp only [driverLoopE]
    split
    · exact ⟨fun h => ErrKind.noConfusion h, rfl, rfl⟩
    · split
      · next k heq =>
        refine ⟨?_, rfl, rfl⟩
        cases k <;> exact fun h => ErrKind.noConfusion h
      · next heq =>
        split
        · exact ⟨fun h => ErrKind.noConfusion h, rfl, rfl⟩
        · next st heq2 => exact ih st.1 (neval + st.2)

theorem dqagpE_model_spec (machEps : ℚ) (rule : RuleE) (cls : Classifier)
    (f : ℚ → Option ℚ) (a b : ℚ) (points : List ℚ) (epsabs epsrel : ℚ)
    (npts2 leniw lenw : ℤ) :
    dqagpE (dqagpeModelE machEps rule cls f a b points epsabs epsrel)
        npts2 leniw lenw = invalidOutE ∨
      ((dqagpE (dqagpeModelE machEps rule cls f a b points epsabs epsrel)
            npts2 leniw lenw).status ≠ ErrKind.invalidInput ∧
        (dqagpE (dqagpeModelE machEps rule cls f a b points epsabs epsrel)
            npts2 leniw lenw).result =
          sumApprox (dqagpE (dqagpeModelE machEps rule cls f a b points
            epsabs epsrel) npts2 leniw lenw).recs ∧
        (dqagpE (dqagpeModelE machEps rule cls f a b points epsabs epsrel)
            npts2 leniw lenw).abserr =
          sumErr (dqagpE (dqagpeModelE machEps rule cls f a b points epsabs
            epsrel) npts2 leniw lenw).recs) := by
  unfold dqagpE
  split
  · exact Or.inl rfl
  · unfold dqagpeModelE
    split
    · exact Or.inl rfl
    · split
      · exact Or.inr ⟨fun h => ErrKind.noConfusion h, rfl, rfl⟩
      · next st heq =>
        exact Or.inr (driverLoopE_spec epsabs epsrel rule cls f _ _ _)

theorem xerrorDiag_none_iff (k : ErrKind) :
    xerrorDiag k = none ↔ k = ErrKind.success := by
  unfold xerrorDiag
  split
  · next h => simp [h]
  · next h => simp [h]

theorem xerrorDiag_some_spec (k : ErrKind) (msg : String) (k2 : ErrKind)
    (lvl : ℤ) (h : xerrorDiag k = some (msg, k2, lvl)) :
    msg = abnormalMsg ∧ k2 = k := by
  unfold xerrorDiag at h
  revert h
  split
  · intro h
    exact Option.noConfusion h
  · intro h
    simp only [Option.some.injEq, Prod.mk.injEq] at h
    exact ⟨h.1.symm, h.2.1.symm⟩

/-- C8: every abnormal termination other than InvalidInput - capacity
exhaustion (IER=1), the classified abnormal states IER=2-5, and the fatal
integrand-evaluation failure - still populates a best-effort result and
abserr (the sums over the returned subinterval table), and no exception
crosses the component boundary: the integration is a total function, every
failure is reported solely through the status field, and the dqagp.f
error-handler step only emits a diagnostic carrying that same status
(exactly on abnormal returns) without altering any output. -/
theorem c8_failure_encoded_in_status (machEps : ℚ) (rule : RuleE)
    (cls : Classifier) (f : ℚ → Option ℚ) (a b : ℚ) (points : List ℚ)
    (epsabs epsrel : ℚ) (npts2 leniw lenw : ℤ) :
    ((dqagpFullE machEps rule cls f a b points epsabs epsrel npts2 leniw
          lenw).1 = invalidOutE ∨
      ((dqagpFullE machEps rule cls f a b points epsabs epsrel npts2 leniw
            lenw).1.status ≠ ErrKind.invalidInput ∧
        (dqagpFullE machEps rule cls f a b points epsabs epsrel npts2 leniw
            lenw).1.result =
          sumApprox (dqagpFullE machEps rule cls f a b points epsabs epsrel
            npts2 leniw lenw).1.recs ∧
        (dqagpFullE machEps rule cls f a b points epsabs epsrel npts2 leniw
            lenw).1.abserr =
          sumErr (dqagpFullE machEps rule cls f a b points epsabs epsrel
            npts2 leniw lenw).1.recs)) ∧
      ((dqagpFullE machEps rule cls f a b points epsabs epsrel npts2 leniw
          lenw).2 = none ↔
        (dqagpFullE machEps rule cls f a b points epsabs epsrel npts2 leniw
          lenw).1.status = ErrKind.success) ∧
      (∀ (msg : String) (k : ErrKind) (lvl : ℤ),
        (dqagpFullE machEps rule cls f a b points epsabs epsrel npts2 leniw
          lenw).2 = some (msg, k, lvl) →
        msg = abnormalMsg ∧
          k = (dqagpFullE machEps rule cls f a b points epsabs epsrel npts2
            leniw lenw).1.status) := by
  refine ⟨?_, ?_, ?_⟩
  · exact dqagpE_model_spec machEps rule cls f a b points epsabs epsrel
      npts2 leniw lenw
  · exact xerrorDiag_none_iff _
  · intro msg k lvl h
    exact xerrorDiag_some_spec _ msg k lvl h

/-- Witness for C8 on two abnormal runs: a classifier that raises
ProbableDivergence (IER=5) mid-loop, whose output still carries the sums
over the returned table and a non-empty diagnostic, and an integrand that
fails to evaluate, terminating with the evaluation-failure status rather
than any exception. -/
theorem c8_failure_encoded_in_status_witness :
    (dqagpFullE (1 / 2 ^ 52) (fun g u v => some (1, 1, 1))
        (fun rs n => some AbnormalKind.probDivergence) (fun x => some 1)
        0 1 [] (1 / 2) 0 2 6 10).1.status ≠ ErrKind.invalidInput ∧
      (dqagpFullE (1 / 2 ^ 52) (fun g u v => some (1, 1, 1))
          (fun rs n => some AbnormalKind.probDivergence) (fun x => some 1)
          0 1 [] (1 / 2) 0 2 6 10).1.result =
        sumApprox (dqagpFullE (1 / 2 ^ 52) (fun g u v => some (1, 1, 1))
          (fun rs n => some AbnormalKind.probDivergence) (fun x => some 1)
          0 1 [] (1 / 2) 0 2 6 10).1.recs ∧
      (dqagpFullE (1 / 2 ^ 52) (fun g u v => some (1, 1, 1))
          (fun rs n => some AbnormalKind.probDivergence) (fun x => some 1)
          0 1 [] (1 / 2) 0 2 6 10).2 ≠ none ∧
      (dqagpFullE (1 / 2 ^ 52)
          (fun g u v => match g u with
            | some y => some (y, 0, 1)
            | none => none)
          (fun rs n => none) (fun x => none) 0 1 [] 1 0 2 4 6).1.status ≠
        ErrKind.invalidInput ∧
      (dqagpFullE (1 / 2 ^ 52)
          (fun g u v => match g u with
            | some y => some (y, 0, 1)
            | none => none)
          (fun rs n => none) (fun x => none) 0 1 [] 1 0 2 4 6).1.abserr =
        sumErr (dqagpFullE (1 / 2 ^ 52)
          (fun g u v => match g u with
            | some y => some (y, 0, 1)
            | none => none)
          (fun rs n => none) (fun x => none) 0 1 [] 1 0 2 4 6).1.recs := by
  have hA := c8_failure_encoded_in_status (1 / 2 ^ 52)
    (fun g u v => some (1, 1, 1))
    (fun rs n => some AbnormalKind.probDivergence) (fun x => some 1)
    0 1 [] (1 / 2) 0 2 6 10
  have hB := c8_failure_encoded_in_status (1 / 2 ^ 52)
    (fun g u v => match g u with
      | some y => some (y, 0, 1)
      | none => none)
    (fun rs n => none) (fun x => none) 0 1 [] 1 0 2 4 6
  have hstA : (dqagpFullE (1 / 2 ^ 52) (fun g u v => some (1, 1, 1))
      (fun rs n => some AbnormalKind.probDivergence) (fun x => some 1)
      0 1 [] (1 / 2) 0 2 6 10).1.status = ErrKind.probDivergence := by
    norm_num [dqagpFullE, dqagpE, dqagpeModelE, dimensionCheckFails,
      leniwTooSmall, lenwTooSmall, npts2TooSmall, invalidDriverInput,
      limitOf, sortedLimits, List.insertionSort, List.orderedInsert,
      segmentsOf, initRecordsE, bisectAtE, driverLoopE, tolMet, sumApprox,
      sumErr, outE, AbnormalKind.toErr, Int.tdiv]
  have hstB : (dqagpFullE (1 / 2 ^ 52)
      (fun g u v => match g u with
        | some y => some (y, 0, 1)
        | none => none)
      (fun rs n => none) (fun x => none) 0 1 [] 1 0 2 4 6).1.status =
      ErrKind.evalFailure := by
    norm_num [dqagpFullE, dqagpE, dqagpeModelE, dimensionCheckFails,
      leniwTooSmall, lenwTooSmall, npts2TooSmall, invalidDriverInput,
      limitOf, sortedLimits, List.insertionSort, List.orderedInsert,
      segmentsOf, initRecordsE, bisectAtE, driverLoopE, tolMet, sumApprox,
      sumErr, outE, AbnormalKind.toErr, Int.tdiv]
  rcases hA with ⟨hA1, hA2, _⟩
  rcases hB with ⟨hB1, _, _⟩
  rcases hA1 with hA1 | hA1
  · rw [hA1] at hstA
    exact absurd hstA (by decide)
  rcases hB1 with hB1 | hB1
  · rw [hB1] at hstB
    exact absurd hstB (by decide)
  refine ⟨hA1.1, hA1.2.1, ?_, hB1.1, hB1.2.2⟩
  intro hn
  have hs := hA2.mp hn
  rw [hstA] at hs
  exact ErrKind.noConfusion hs
